import Mathlib

/-!
Verification development for the ncman troff viewer (src/man/main.c).

Bytes are modelled as `Nat` (the source reads them as `unsigned char`, so
0..255).  C strings are modelled as NUL-free `List Nat`; reading the
terminator of a C string corresponds to `List.getD _ 0` / `headD 0`
returning `0` past the end.  Fallible C code (NULL returns, and the one
reachable out-of-bounds access) is modelled with `Except` / `Option`.
Loops that walk a buffer by whole lines are modelled with a fuel parameter
instantiated with the buffer length, which dominates the number of
iterations (each iteration consumes at least one byte), so the fuel-
exhaustion branch is unreachable from the entry points.
-/

deriving instance DecidableEq for Except

/-- C `isspace` in the default locale, on a byte value: space (0x20) and
the control characters 0x09..0x0d. -/
def isspace (c : Nat) : Bool := c == 32 || (9 ≤ c && c ≤ 13)

/-- The `ttypes` enumeration of main.c. -/
inductive Ttype where
  | unknown | comment | font | structural | paragraph | hyperlink | synopsis
deriving DecidableEq

/-- The `ltypes` enumeration of main.c. -/
inductive Ltype where
  | UNKNOWN | COMMENT
  | B | BI | BR | I | IB | IR | RB | RI | SB | SM
  | EE | EX | RE | RS | SH | SS | TH
  | IP | LP | P | PP | TP | TQ
  | ME | MT | UE | UR
  | OP | SY | YS
deriving DecidableEq

/-- The `trofftype` record of main.c: line category, symbol bytes (the
macro name after the leading period), type category. -/
structure Trofftype where
  ltype : Ltype
  symbol : List Nat
  ttype : Ttype
deriving DecidableEq

/-- The static `trofftypes` table of main.c (28 entries; `LINE_UNKNOWN`
has the empty symbol and is skipped during trie construction).
Byte values: `\` = 92, `"` = 34, letters by ASCII. -/
def trofftypes : List Trofftype := [
  ⟨.UNKNOWN, [], .unknown⟩,
  ⟨.COMMENT, [92, 34], .comment⟩,
  ⟨.B, [66], .font⟩, ⟨.BI, [66, 73], .font⟩, ⟨.BR, [66, 82], .font⟩,
  ⟨.I, [73], .font⟩, ⟨.IB, [73, 66], .font⟩, ⟨.IR, [73, 82], .font⟩,
  ⟨.EE, [69, 69], .structural⟩, ⟨.EX, [69, 88], .structural⟩,
  ⟨.RE, [82, 69], .structural⟩, ⟨.RS, [82, 83], .structural⟩,
  ⟨.SH, [83, 72], .structural⟩, ⟨.SS, [83, 83], .structural⟩,
  ⟨.TH, [84, 72], .structural⟩,
  ⟨.IP, [73, 80], .paragraph⟩, ⟨.LP, [76, 80], .paragraph⟩,
  ⟨.P, [80], .paragraph⟩, ⟨.PP, [80, 80], .paragraph⟩,
  ⟨.TP, [84, 80], .paragraph⟩, ⟨.TQ, [84, 81], .paragraph⟩,
  ⟨.ME, [77, 69], .hyperlink⟩, ⟨.MT, [77, 84], .hyperlink⟩,
  ⟨.UE, [85, 69], .hyperlink⟩, ⟨.UR, [85, 82], .hyperlink⟩,
  ⟨.OP, [79, 80], .synopsis⟩, ⟨.SY, [83, 89], .synopsis⟩,
  ⟨.YS, [89, 83], .synopsis⟩]

/-- The `troffnode` trie of main.c.  The C node holds one child slot per
byte 0..127 plus an optional descriptor; the child array is modelled
sparsely as an association list keyed by the byte value, with identical
lookup semantics on 0..127 (absent key = NULL child slot). -/
inductive Troffnode where
  | mk (children : List (Nat × Troffnode)) (ttype : Option Trofftype)

/-- Child slots of a trie node. -/
def Troffnode.children : Troffnode → List (Nat × Troffnode)
  | .mk cs _ => cs

/-- Descriptor attached to a trie node (NULL = `none`). -/
def Troffnode.ttype : Troffnode → Option Trofftype
  | .mk _ tt => tt

/-- Reading child slot `a` of a node (`n->next[a]`, NULL = `none`). -/
def lookupChild : List (Nat × Troffnode) → Nat → Option Troffnode
  | [], _ => none
  | (k, c) :: rest, a => if k = a then some c else lookupChild rest a

/-- Writing child slot `a` of a node (`n->next[a] = c`). -/
def setChild : List (Nat × Troffnode) → Nat → Troffnode → List (Nat × Troffnode)
  | [], a, c => [(a, c)]
  | (k, c0) :: rest, a, c =>
      if k = a then (k, c) :: rest else (k, c0) :: setChild rest a c

/-- Descriptor found by walking a byte path from a node (follows child
slots; `none` if the path leaves the trie or the final node is untagged). -/
def taggedAt : Troffnode → List Nat → Option Trofftype
  | t, [] => t.ttype
  | t, a :: s =>
      match lookupChild t.children a with
      | some c => taggedAt c s
      | none => none

/-- Failure modes of `trofftrie` in main.c (the "illegal symbol" and
"duplicate command" error paths; allocation failure is not modelled). -/
inductive TrieErr where
  | illegalSymbol | duplicateCommand
deriving DecidableEq

/-- The per-symbol insertion loop of `trofftrie`: walk the symbol's bytes
from the root, creating child nodes as needed; a byte that is negative as
a signed char (value ≥ 128) is an illegal symbol; a terminal node that is
already tagged is a duplicate command. -/
def insertSym : Troffnode → List Nat → Trofftype → Except TrieErr Troffnode
  | t, [], d =>
      match t.ttype with
      | some _ => .error .duplicateCommand
      | none => .ok (.mk t.children (some d))
  | t, a :: s, d =>
      if 128 ≤ a then .error .illegalSymbol
      else
        match insertSym ((lookupChild t.children a).getD (.mk [] none)) s d with
        | .error e => .error e
        | .ok c => .ok (.mk (setChild t.children a c) t.ttype)

/-- The outer loop of `trofftrie`: fold the table over a starting node,
skipping entries with an empty symbol. -/
def buildTrie : Troffnode → List Trofftype → Except TrieErr Troffnode
  | t, [] => .ok t
  | t, d :: rest =>
      if d.symbol = [] then buildTrie t rest
      else
        match insertSym t d.symbol d with
        | .error e => .error e
        | .ok t1 => buildTrie t1 rest

/-- `trofftrie()` of main.c: build the trie (rooted at an implicit
leading period) from the static table. -/
def trofftrie : Except TrieErr Troffnode := buildTrie (.mk [] none) trofftypes

/-- The trie actually built by `trofftrie` (construction succeeds on the
static table; see `trofftrie_ok`). -/
def theTrie : Troffnode :=
  match trofftrie with
  | .ok t => t
  | .error _ => .mk [] none

/-- The scan loop of `get_type` after the leading period has been
consumed: the list holds the remaining bytes within the length bound, and
`acc` is the number of bytes consumed so far (written back to `*ws`).
At each non-whitespace, non-NUL byte the C code checks
`**ws > sizeof(trie->next)/sizeof(*trie->next)` — that quotient is 128 —
so byte values above 128 return NULL, but the value 128 itself passes the
check and indexes `next[128]`, one slot past the 0..127 array: that
out-of-bounds read is modelled as `.error ()`. -/
def get_type_go : Troffnode → List Nat → Nat → Except Unit (Option Trofftype × Nat)
  | t, [], acc => .ok (t.ttype, acc)
  | t, c :: rest, acc =>
      if isspace c || c == 0 then .ok (t.ttype, acc)
      else if 128 < c then .ok (none, acc)
      else if c = 128 then .error ()
      else
        match lookupChild t.children c with
        | none => .ok (none, acc)
        | some t1 => get_type_go t1 rest (acc + 1)

/-- `get_type` of main.c on the remaining bytes of a line: NULL unless the
first byte is a period; otherwise walk the trie over the symbol bytes and
return the reached node's descriptor together with the number of bytes
consumed (the advancement of `*ws`).  The caller always supplies at least
one byte; the empty case stands for the unconditional first read. -/
def get_type (t : Troffnode) : List Nat → Except Unit (Option Trofftype × Nat)
  | [] => .error ()
  | c :: rest => if c ≠ 46 then .ok (none, 0) else get_type_go t rest 1

/-- The end-of-line scan of `troff_parse` (lines 411-416): the index of
the first newline or NUL byte in the given bytes, or their length if
neither occurs before the length bound runs out. -/
def eolIndex : List Nat → Nat
  | [] => 0
  | c :: rest => if c = 10 || c = 0 then 0 else eolIndex rest + 1

/-- The "functional end of line" of `troff_parse` (lines 418-421): from
the end-of-line index `e` in buffer `buf`, step back one byte when the
scan stopped on a newline (`left && *eol == '\n'`). -/
def feolIndex (e : Nat) (buf : List Nat) : Nat :=
  if e < buf.length ∧ buf.getD e 0 = 10 then e - 1 else e

/-- Offset of the next line from the start of the current one
(lines 443-444: `off += eol - line; line = eol + 1`): one byte past the
line terminator.  The value is irrelevant when `get_type` hit its
out-of-bounds read, since the parse stops there. -/
def lineAdvance (trie : Troffnode) (buf : List Nat) : Nat :=
  match get_type trie buf with
  | .error _ => 1
  | .ok (_, k) => k + eolIndex (buf.drop k) + 1

/-- Failure modes of `troff_parse` / `lex_title`, one per `return -1`
site (allocation failure is not modelled); `oobRead` stands for the
out-of-bounds reads reachable in the C code (`next[128]` in `get_type`,
and `strndup` with a negative length on a bare `.TH\n` line). -/
inductive ParseErr where
  | duplicateTitle | emptyTitle | titleFail | sectionFail | noTitle | oobRead
deriving DecidableEq

/-- The `pagedom` state populated by `troff_parse`: the extracted title
and section strings and the root node's raw text (the `version` slot is
never populated in this scope). -/
structure Pagedom where
  title : Option (List Nat)
  sectionStr : Option (List Nat)
  roottext : Option (List Nat)
deriving DecidableEq

/-- The token-terminator scan of `lex_title` (the two identical
`while(*endtok)` loops): starting in quote state `q` at string offset `k`
(the loop starts at `tok + 1`), advance until the token's terminator; a
quoted token ends only at a closing quote, an unquoted token at the first
whitespace or at a quote (which flips the quote state).  Returns the
terminator offset and the final quote state, or `none` when the string
ends (NUL) before a terminator is found — the C code treats that as an
extraction failure. -/
def scanEnd : Bool → List Nat → Nat → Option (Nat × Bool)
  | _, [], _ => none
  | q, c :: rest, k =>
      if c = 0 then none
      else if q then
        if c = 34 then some (k, false) else scanEnd q rest (k + 1)
      else if isspace c then some (k, q)
      else if c = 34 then some (k, true)
      else scanEnd q rest (k + 1)

/-- Reading the current character of a C string modelled as a list
(`*tok`): the byte, or the NUL terminator 0 past the end. -/
def cHead (l : List Nat) : Nat := l.headD 0

/-- `lex_title` of main.c on the root node's raw text: skip leading
whitespace, extract the title token (optionally quote-delimited), step
past its terminator, then extract the section token the same way; the
whitespace-and-quote skipping before the section token only happens when
the title token did not leave the scan in quoted state. -/
def lex_title (text : List Nat) : Except ParseErr (List Nat × List Nat) :=
  let t1 := text.dropWhile (fun c => isspace c)
  let q1 := cHead t1 == 34
  let t2 := if q1 then t1.drop 1 else t1
  if cHead t2 = 0 then .error .titleFail
  else
    match scanEnd q1 (t2.drop 1) 1 with
    | none => .error .titleFail
    | some (e1, q2) =>
      let title := t2.take e1
      let t3 := t2.drop (e1 + 1)
      if cHead t3 = 0 then .error .sectionFail
      else
        match
          (if q2 then some (q2, t3)
           else
             let t4 := t3.dropWhile (fun c => isspace c)
             let q3 := cHead t4 == 34
             let t5 := if q3 then t4.drop 1 else t4
             if cHead t5 = 0 then none else some (q3, t5)) with
        | none => .error .sectionFail
        | some (q4, t6) =>
          match scanEnd q4 (t6.drop 1) 1 with
          | none => .error .sectionFail
          | some (e2, _) => .ok (title, t6.take e2)

/-- One iteration of the `troff_parse` loop on the bytes of the current
line (`buf` is the buffer suffix starting at the line, whose length is
the remaining length bound): classify the line with `get_type`, locate
the end of line and the functional end of line, and on a `.TH` line check
for a duplicate title, check the `ws == feol || ws + 1 == feol` empty
guard, extract the raw text `strndup(ws + 1, feol - (ws + 1))` and lex
it.  When `feol` has been stepped back to before `ws + 1` (a bare `.TH`
followed directly by a newline) the C `strndup` length underflows and the
copy reads out of bounds: modelled as `.error .oobRead`. -/
def troff_parse_step (trie : Troffnode) (dom : Pagedom) (buf : List Nat) :
    Except ParseErr Pagedom :=
  match get_type trie buf with
  | .error _ => .error .oobRead
  | .ok (node, k) =>
    let e := k + eolIndex (buf.drop k)
    let feol := feolIndex e buf
    match node with
    | none => .ok dom
    | some tt =>
      if tt.ltype = Ltype.TH then
        match dom.title with
        | some _ => .error .duplicateTitle
        | none =>
          if k = feol ∨ k + 1 = feol then .error .emptyTitle
          else if feol < k + 1 then .error .oobRead
          else
            let text := (buf.drop (k + 1)).take (feol - (k + 1))
            match lex_title text with
            | .error er => .error er
            | .ok (ti, se) => .ok ⟨some ti, some se, some text⟩
      else .ok dom

/-- The line loop of `troff_parse`: process lines until the buffer is
exhausted, then fail with the no-title error when no `.TH` line was ever
parsed.  The fuel dominates the number of iterations whenever it is at
least the buffer length (each line consumes at least one byte), making
the fuel-exhaustion branch unreachable from `troff_parse`. -/
def troff_parse_loop (trie : Troffnode) : Nat → Pagedom → List Nat → Except ParseErr Pagedom
  | _, dom, [] =>
      match dom.title with
      | none => .error .noTitle
      | some _ => .ok dom
  | 0, _, _ :: _ => .error .oobRead
  | fuel + 1, dom, c :: rest =>
      match troff_parse_step trie dom (c :: rest) with
      | .error er => .error er
      | .ok dom1 => troff_parse_loop trie fuel dom1 ((c :: rest).drop (lineAdvance trie (c :: rest)))

/-- `troff_parse` of main.c: walk the buffer line by line starting from
an empty document state. -/
def troff_parse (trie : Troffnode) (buf : List Nat) : Except ParseErr Pagedom :=
  troff_parse_loop trie buf.length ⟨none, none, none⟩ buf

/-- Whether some line of the buffer is classified by `get_type` as the
title macro `.TH` (scanning lines exactly as `troff_parse` does, and
stopping — without a match — where the classifier would hit its
out-of-bounds read). -/
def hasTHloop (trie : Troffnode) : Nat → List Nat → Bool
  | _, [] => false
  | 0, _ :: _ => false
  | fuel + 1, c :: rest =>
      match get_type trie (c :: rest) with
      | .error _ => false
      | .ok (node, _) =>
          (match node with
           | some tt => decide (tt.ltype = Ltype.TH)
           | none => false)
          || hasTHloop trie fuel ((c :: rest).drop (lineAdvance trie (c :: rest)))

/-- Entry point for `hasTHloop`, with the fuel the buffer length (as in
`troff_parse`). -/
def hasTH (trie : Troffnode) (buf : List Nat) : Bool :=
  hasTHloop trie buf.length buf

/-- Failure modes of the loading pipeline (`map_troff_data` /
`get_troff_data`), one per `return NULL` site. -/
inductive LoadErr where
  | openFail | fstatFail | tooSmall | mapFail | decompressFail
deriving DecidableEq

/-- Which decompression backend main.c was built with (`USE_DEFLATE`
selects libdeflate, otherwise zlib). -/
inductive Variant where
  | libdeflate | zlib
deriving DecidableEq

/-- The two memory-mapped regions a document session can create: the
file-backed mapping (`buf`) and the anonymous writable region for the
inflated data (`ubuf`). -/
inductive Buf where
  | orig | ubuf
deriving DecidableEq

/-- Result of `map_gzipped_data`: the returned value (`some ulen` when
the inflated map is returned and `*len` updated, `none` for NULL) and
the number of times the function `munmap`ed the original mapping. -/
structure GzRes where
  result : Option Nat
  bufRel : Nat
deriving DecidableEq

/-- The libdeflate `map_gzipped_data` (lines 54-71): allocate a
decompressor (releasing the input map on failure), inflate, release the
input map, and return the inflated region with the updated length on
success or NULL on failure. -/
def map_gzipped_data_libdeflate (allocOk inflateOk : Bool) (ulen : Nat) : GzRes :=
  if !allocOk then ⟨none, 1⟩
  else if !inflateOk then ⟨none, 1⟩
  else ⟨some ulen, 1⟩

/-- The zlib `map_gzipped_data` (lines 74-99): `inflateInit` failure
releases the input map and returns NULL; `inflate` failure releases it
and returns NULL; the success branch (`r == Z_STREAM_END`) falls through
to `munmap(buf, *len)` a second time and `return NULL` — it never
returns the inflated region. -/
def map_gzipped_data_zlib (initOk inflateOk : Bool) : GzRes :=
  if !initOk then ⟨none, 1⟩
  else if !inflateOk then ⟨none, 1⟩
  else ⟨none, 2⟩

/-- The gzip signature test of `map_troff_data` (line 121): first three
mapped bytes `1f 8b 08`. -/
def gzipSig (content : List Nat) : Bool :=
  content.getD 0 0 == 31 && content.getD 1 0 == 139 && content.getD 2 0 == 8

/-- The little-endian uncompressed length read from the last four mapped
bytes (line 124). -/
def gzUlen (content : List Nat) : Nat :=
  content.getD (content.length - 4) 0 + 256 * content.getD (content.length - 3) 0
    + 65536 * content.getD (content.length - 2) 0
    + 16777216 * content.getD (content.length - 1) 0

/-- Result of `map_troff_data`: which region (with its length) is handed
back, or the error, plus how many times each region was `munmap`ed inside
the call. -/
structure LoadRes where
  result : Except LoadErr (Buf × Nat)
  origRel : Nat
  ubufRel : Nat
deriving DecidableEq

/-- `map_troff_data` of main.c (lines 102-139) with failure injection for
the environment-dependent steps: `fstat`, the file size, the mapped
content, the two `mmap` calls and the decompressor outcomes.  Files
smaller than 18 bytes are rejected before the mapping is created or any
byte inspected; a gzip signature routes through `map_gzipped_data`, whose
NULL result makes the caller release the anonymous region too. -/
def map_troff_data (variant : Variant) (fstatOk : Bool) (size : Nat) (content : List Nat)
    (mmapOk anonOk allocOk initOk inflateOk : Bool) : LoadRes :=
  if !fstatOk then ⟨.error .fstatFail, 0, 0⟩
  else if size < 18 then ⟨.error .tooSmall, 0, 0⟩
  else if !mmapOk then ⟨.error .mapFail, 0, 0⟩
  else if gzipSig content then
    if !anonOk then ⟨.error .mapFail, 1, 0⟩
    else
      let gz := match variant with
        | .libdeflate => map_gzipped_data_libdeflate allocOk inflateOk (gzUlen content)
        | .zlib => map_gzipped_data_zlib initOk inflateOk
      match gz.result with
      | none => ⟨.error .decompressFail, gz.bufRel, 1⟩
      | some l => ⟨.ok (.ubuf, l), gz.bufRel, 0⟩
  else ⟨.ok (.orig, size), 0, 0⟩

/-- Outcome of one `manloop` document session: the return value and the
total number of times each mapping was released over the whole session. -/
structure SessRes where
  ret : Int
  origRel : Nat
  ubufRel : Nat
deriving DecidableEq

/-- `manloop` of main.c (lines 581-633) with failure injection for the
interactive collaborators: load the file (`get_troff_data` =
open + `map_troff_data`), build the trie, parse and render, run the bar
and the input loop; every exit path goes through `done`, which `munmap`s
the buffer returned by the loader exactly once when it is non-NULL. -/
def manloop (openOk : Bool) (variant : Variant) (fstatOk : Bool) (size : Nat)
    (content : List Nat) (mmapOk anonOk allocOk initOk inflateOk : Bool)
    (trieOk parseOk renderOk barOk quitKey : Bool) : SessRes :=
  if !openOk then ⟨-1, 0, 0⟩
  else
    let m := map_troff_data variant fstatOk size content mmapOk anonOk allocOk initOk inflateOk
    match m.result with
    | .error _ => ⟨-1, m.origRel, m.ubufRel⟩
    | .ok (b, _) =>
      let oR := m.origRel + (if b = Buf.orig then 1 else 0)
      let uR := m.ubufRel + (if b = Buf.ubuf then 1 else 0)
      if !trieOk then ⟨-1, oR, uR⟩
      else if !parseOk then ⟨-1, oR, uR⟩
      else if !renderOk then ⟨-1, oR, uR⟩
      else if !barOk then ⟨-1, oR, uR⟩
      else if quitKey then ⟨0, oR, uR⟩
      else ⟨-1, oR, uR⟩

/-- An 18-byte input with the gzip signature and little-endian
uncompressed length 4, used as concrete failing input. -/
def gzSample : List Nat := [31, 139, 8] ++ List.replicate 11 0 ++ [4, 0, 0, 0]

/-! Helper lemmas about the trie. -/

theorem trofftrie_ok : trofftrie = .ok theTrie := rfl

theorem taggedAt_nilNode (q : List Nat) : taggedAt (.mk [] none) q = none := by
  cases q with
  | nil => simp [taggedAt, Troffnode.ttype]
  | cons a s => simp [taggedAt, Troffnode.children, lookupChild]

theorem lookupChild_setChild (cs : List (Nat × Troffnode)) (a b : Nat) (c : Troffnode) :
    lookupChild (setChild cs a c) b = if b = a then some c else lookupChild cs b := by
  induction cs with
  | nil =>
    by_cases hb : b = a
    · subst hb
      simp [setChild, lookupChild]
    · simp only [setChild, lookupChild, if_neg hb]
      rw [if_neg (fun h : a = b => hb h.symm)]
  | cons kc rest ih =>
    obtain ⟨k, c0⟩ := kc
    by_cases hk : k = a
    · subst hk
      by_cases hb : b = k
      · subst hb
        simp [setChild, lookupChild]
      · simp only [setChild, lookupChild, if_pos rfl, if_neg hb,
          if_neg (fun h : k = b => hb h.symm)]
    · by_cases hb : b = k
      · subst hb
        simp [setChild, lookupChild, if_neg hk]
      · simp only [setChild, lookupChild, if_neg hk,
          if_neg (fun h : k = b => hb h.symm), ih]

theorem insertSym_taggedAt : ∀ (s : List Nat) (t t' : Troffnode) (d : Trofftype),
    insertSym t s d = .ok t' →
    ∀ p, taggedAt t' p = if p = s then some d else taggedAt t p := by
  intro s
  induction s with
  | nil =>
    intro t t' d h p
    obtain ⟨cs, tt⟩ := t
    cases tt with
    | some x => simp [insertSym, Troffnode.ttype] at h
    | none =>
      simp [insertSym, Troffnode.ttype] at h
      subst h
      cases p with
      | nil => simp [taggedAt, Troffnode.ttype]
      | cons b q => simp [taggedAt, Troffnode.children]
  | cons a s ih =>
    intro t t' d h p
    obtain ⟨cs, tt⟩ := t
    by_cases ha : 128 ≤ a
    · simp [insertSym, ha] at h
    · rw [insertSym, if_neg ha] at h
      rcases hc : insertSym ((lookupChild (Troffnode.mk cs tt).children a).getD (.mk [] none)) s d
        with e | c1
      · rw [hc] at h; exact absurd h (by simp)
      · rw [hc] at h
        simp at h
        subst h
        cases p with
        | nil => simp [taggedAt, Troffnode.ttype]
        | cons b q =>
          by_cases hb : b = a
          · subst hb
            simp [taggedAt, Troffnode.children, lookupChild_setChild]
            rw [ih _ _ _ hc q]
            by_cases hq : q = s
            · simp [hq]
            · simp [hq]
              rcases hl : lookupChild cs b with _ | c0
              · simp [Troffnode.children, hl]
                rw [taggedAt_nilNode]
              · simp [Troffnode.children, hl]
          · simp [taggedAt, Troffnode.children, lookupChild_setChild, hb]

theorem insertSym_ok_pre : ∀ (s : List Nat) (t t' : Troffnode) (d : Trofftype),
    insertSym t s d = .ok t' → taggedAt t s = none := by
  intro s
  induction s with
  | nil =>
    intro t t' d h
    obtain ⟨cs, tt⟩ := t
    cases tt with
    | some x => simp [insertSym, Troffnode.ttype] at h
    | none => simp [taggedAt, Troffnode.ttype]
  | cons a s ih =>
    intro t t' d h
    obtain ⟨cs, tt⟩ := t
    by_cases ha : 128 ≤ a
    · simp [insertSym, ha] at h
    · rw [insertSym, if_neg ha] at h
      rcases hc : insertSym ((lookupChild (Troffnode.mk cs tt).children a).getD (.mk [] none)) s d
        with e | c1
      · rw [hc] at h; exact absurd h (by simp)
      · rw [hc] at h
        have hpre := ih _ _ _ hc
        simp [taggedAt, Troffnode.children]
        rcases hl : lookupChild cs a with _ | c0
        · simp
        · simp [Troffnode.children, hl] at hpre
          simp [hpre]

theorem buildTrie_fails_of_tagged : ∀ (tbl : List Trofftype) (t : Troffnode) (d x : Trofftype),
    d ∈ tbl → d.symbol ≠ [] → taggedAt t d.symbol = some x →
    ∀ t', buildTrie t tbl ≠ .ok t' := by
  intro tbl
  induction tbl with
  | nil => intro t d x hmem; simp at hmem
  | cons f rest ih =>
    intro t d x hmem hne htag t' hok
    by_cases hf : f.symbol = []
    · rw [buildTrie, if_pos hf] at hok
      rcases List.mem_cons.mp hmem with rfl | hmem'
      · exact hne hf
      · exact ih t d x hmem' hne htag t' hok
    · rw [buildTrie, if_neg hf] at hok
      rcases hins : insertSym t f.symbol f with e | t1
      · rw [hins] at hok; exact absurd hok (by simp)
      · rw [hins] at hok
        rcases List.mem_cons.mp hmem with rfl | hmem'
        · rw [insertSym_ok_pre _ _ _ _ hins] at htag
          exact absurd htag (by simp)
        · have h1 := insertSym_taggedAt _ _ _ _ hins d.symbol
          by_cases hds : d.symbol = f.symbol
          · rw [if_pos hds] at h1
            exact ih t1 d f hmem' hne h1 t' hok
          · rw [if_neg hds] at h1
            rw [htag] at h1
            exact ih t1 d x hmem' hne h1 t' hok

theorem buildTrie_taggedAt_notin : ∀ (tbl : List Trofftype) (t t' : Troffnode),
    buildTrie t tbl = .ok t' → ∀ p, (∀ d ∈ tbl, d.symbol ≠ p) →
    taggedAt t' p = taggedAt t p := by
  intro tbl
  induction tbl with
  | nil => intro t t' h p _; simp [buildTrie] at h; subst h; rfl
  | cons f rest ih =>
    intro t t' h p hnot
    by_cases hf : f.symbol = []
    · rw [buildTrie, if_pos hf] at h
      exact ih t t' h p (fun d hd => hnot d (List.mem_cons_of_mem _ hd))
    · rw [buildTrie, if_neg hf] at h
      rcases hins : insertSym t f.symbol f with e | t1
      · rw [hins] at h; exact absurd h (by simp)
      · rw [hins] at h
        have hone := insertSym_taggedAt _ _ _ _ hins p
        rw [if_neg (fun hh => hnot f (List.mem_cons_self f rest) hh.symm)] at hone
        rw [ih t1 t' h p (fun d hd => hnot d (List.mem_cons_of_mem _ hd)), hone]

/-! Helper lemmas about the classifier scan. -/

theorem get_type_dot (t : Troffnode) (l : List Nat) :
    get_type t (46 :: l) = get_type_go t l 1 := by
  simp [get_type]

theorem get_type_path : ∀ (s : List Nat) (t : Troffnode) (acc : Nat) (c : Nat) (r : List Nat),
    (∀ b ∈ s, b ≠ 0 ∧ isspace b = false ∧ b < 128) → (isspace c = true ∨ c = 0) →
    ∃ k, get_type_go t (s ++ c :: r) acc = .ok (taggedAt t s, k) := by
  intro s
  induction s with
  | nil =>
    intro t acc c r _ hc
    refine ⟨acc, ?_⟩
    have hcc : (isspace c || c == 0) = true := by
      rcases hc with h | h
      · simp [h]
      · simp [h]
    simp [get_type_go, hcc, taggedAt]
  | cons a s ih =>
    intro t acc c r hclean hc
    have ha := hclean a (List.mem_cons_self a s)
    have hrest : ∀ b ∈ s, b ≠ 0 ∧ isspace b = false ∧ b < 128 :=
      fun b hb => hclean b (List.mem_cons_of_mem a hb)
    have hga : (isspace a || a == 0) = false := by
      simp [ha.2.1, ha.1]
    have hn128 : ¬ (128 < a) := by omega
    have hne128 : ¬ (a = 128) := by omega
    rw [List.cons_append, get_type_go, if_neg (by simp [hga]), if_neg hn128, if_neg hne128]
    rcases hl : lookupChild t.children a with _ | t1
    · exact ⟨acc, by simp [taggedAt, hl]⟩
    · obtain ⟨k, hk⟩ := ih t1 (acc + 1) c r hrest hc
      exact ⟨k, by simp [taggedAt, hl, hk]⟩

theorem get_type_go_no128 : ∀ (l : List Nat) (t : Troffnode) (acc : Nat),
    (∀ b ∈ l, b ≠ 128) → ∃ p, get_type_go t l acc = .ok p := by
  intro l
  induction l with
  | nil => intro t acc _; exact ⟨(t.ttype, acc), rfl⟩
  | cons c rest ih =>
    intro t acc h
    have hc := h c (List.mem_cons_self c rest)
    rw [get_type_go]
    by_cases h1 : (isspace c || c == 0) = true
    · rw [if_pos h1]; exact ⟨_, rfl⟩
    · rw [if_neg h1]
      by_cases h2 : 128 < c
      · rw [if_pos h2]; exact ⟨_, rfl⟩
      · rw [if_neg h2, if_neg hc]
        rcases hl : lookupChild t.children c with _ | t1
        · exact ⟨_, rfl⟩
        · exact ih t1 (acc + 1) (fun b hb => h b (List.mem_cons_of_mem c hb))

theorem get_type_no128 (t : Troffnode) (c : Nat) (rest : List Nat)
    (h : ∀ b ∈ c :: rest, b ≠ 128) : ∃ p, get_type t (c :: rest) = .ok p := by
  by_cases hc : c = 46
  · subst hc
    rw [get_type_dot]
    exact get_type_go_no128 rest t 1 (fun b hb => h b (List.mem_cons_of_mem _ hb))
  · exact ⟨(none, 0), by simp [get_type, hc]⟩

theorem get_type_go_consumed :
    ∀ (l : List Nat) (t : Troffnode) (acc : Nat) (n : Option Trofftype) (m : Nat),
    get_type_go t l acc = .ok (n, m) →
    acc ≤ m ∧ m - acc ≤ l.length ∧ ∀ i, i < m - acc → l.getD i 0 ≠ 0 ∧ l.getD i 0 ≠ 10 := by
  intro l
  induction l with
  | nil =>
    intro t acc n m h
    simp [get_type_go] at h
    obtain ⟨-, h2⟩ := h
    subst h2
    exact ⟨le_refl _, by simp, fun i hi => absurd hi (by omega)⟩
  | cons c rest ih =>
    intro t acc n m h
    rw [get_type_go] at h
    by_cases h1 : (isspace c || c == 0) = true
    · rw [if_pos h1] at h
      simp at h
      obtain ⟨-, h2⟩ := h
      subst h2
      exact ⟨le_refl _, by simp, fun i hi => absurd hi (by omega)⟩
    · rw [if_neg h1] at h
      have hc0 : c ≠ 0 := by
        intro hh; exact h1 (by simp [hh])
      have hc10 : c ≠ 10 := by
        intro hh; exact h1 (by simp [hh, isspace])
      by_cases h2 : 128 < c
      · rw [if_pos h2] at h
        simp at h
        obtain ⟨-, h3⟩ := h
        subst h3
        exact ⟨le_refl _, by simp, fun i hi => absurd hi (by omega)⟩
      · rw [if_neg h2] at h
        by_cases h3 : c = 128
        · rw [if_pos h3] at h; exact absurd h (by simp)
        · rw [if_neg h3] at h
          rcases hl : lookupChild t.children c with _ | t1
          · rw [hl] at h
            simp at h
            obtain ⟨-, h4⟩ := h
            subst h4
            exact ⟨le_refl _, by simp, fun i hi => absurd hi (by omega)⟩
          · rw [hl] at h
            obtain ⟨ha, hb, hc⟩ := ih t1 (acc + 1) n m h
            refine ⟨by omega, by simp; omega, ?_⟩
            intro i hi
            cases i with
            | zero => simp [List.getD_cons_zero, hc0, hc10]
            | succ j =>
              have := hc j (by omega)
              simpa [List.getD_cons_succ] using this

/-! Helper lemmas about the line scan. -/

theorem eolIndex_shift : ∀ (k : Nat) (buf : List Nat), k ≤ buf.length →
    (∀ i, i < k → buf.getD i 0 ≠ 0 ∧ buf.getD i 0 ≠ 10) →
    eolIndex buf = k + eolIndex (buf.drop k) := by
  intro k
  induction k with
  | zero => intro buf _ _; simp
  | succ k ih =>
    intro buf hlen hcl
    match buf with
    | c :: rest =>
      have h0 := hcl 0 (by omega)
      have hc0 : c ≠ 0 := by simpa [List.getD_cons_zero] using h0.1
      have hc10 : c ≠ 10 := by simpa [List.getD_cons_zero] using h0.2
      rw [eolIndex, if_neg (by simp [hc0, hc10])]
      rw [ih rest (by simpa using hlen)
        (fun i hi => by simpa [List.getD_cons_succ] using hcl (i + 1) (by omega))]
      simp
      omega

theorem eolIndex_stop : ∀ (a : List Nat) (s : Nat) (b : List Nat),
    (∀ c ∈ a, c ≠ 0 ∧ c ≠ 10) → (s = 0 ∨ s = 10) →
    eolIndex (a ++ s :: b) = a.length := by
  intro a
  induction a with
  | nil =>
    intro s b _ hs
    rcases hs with h | h <;> simp [eolIndex, h]
  | cons c rest ih =>
    intro s b hcl hs
    have h0 := hcl c (List.mem_cons_self c rest)
    rw [List.cons_append, eolIndex, if_neg (by simp [h0.1, h0.2])]
    rw [ih s b (fun x hx => hcl x (List.mem_cons_of_mem c hx)) hs]
    simp

theorem getD_append_self (a : List Nat) (s : Nat) (b : List Nat) :
    (a ++ s :: b).getD a.length 0 = s := by
  induction a with
  | nil => simp [List.getD_cons_zero]
  | cons c rest ih => simpa [List.getD_cons_succ] using ih

theorem drop_append_succ (a : List Nat) (s : Nat) (b : List Nat) :
    (a ++ s :: b).drop (a.length + 1) = b := by
  induction a with
  | nil => simp
  | cons c rest ih => simp [ih]

theorem lineAdvance_pos (trie : Troffnode) (buf : List Nat) : 0 < lineAdvance trie buf := by
  rw [lineAdvance]
  rcases hgt : get_type trie buf with e | p
  · simp
  · obtain ⟨n, k⟩ := p
    simp

theorem get_type_consumed (trie : Troffnode) (buf : List Nat) (n : Option Trofftype) (k : Nat)
    (h : get_type trie buf = .ok (n, k)) :
    k ≤ buf.length ∧ ∀ i, i < k → buf.getD i 0 ≠ 0 ∧ buf.getD i 0 ≠ 10 := by
  cases buf with
  | nil => simp [get_type] at h
  | cons c rest =>
    by_cases hc : c = 46
    · subst hc
      rw [get_type_dot] at h
      obtain ⟨h1, h2, h3⟩ := get_type_go_consumed rest trie 1 n k h
      constructor
      · simp
        omega
      · intro i hi
        cases i with
        | zero => simp [List.getD_cons_zero]
        | succ j =>
          have := h3 j (by omega)
          simpa [List.getD_cons_succ] using this
    · simp [get_type, hc] at h
      obtain ⟨-, h2⟩ := h
      subst h2
      exact ⟨by simp, fun i hi => absurd hi (by omega)⟩

theorem lineAdvance_eq (trie : Troffnode) (buf : List Nat) (n : Option Trofftype) (k : Nat)
    (h : get_type trie buf = .ok (n, k)) :
    lineAdvance trie buf = eolIndex buf + 1 := by
  rw [lineAdvance, h]
  obtain ⟨hk, hcl⟩ := get_type_consumed trie buf n k h
  rw [eolIndex_shift k buf hk hcl]

/-! Helper lemmas about the parse loop. -/

theorem troff_parse_step_th_dup (trie : Troffnode) (dom : Pagedom) (buf : List Nat)
    (tt : Trofftype) (k : Nat) (hgt : get_type trie buf = .ok (some tt, k))
    (hth : tt.ltype = Ltype.TH) (t0 : List Nat) (ht : dom.title = some t0) :
    troff_parse_step trie dom buf = .error .duplicateTitle := by
  simp [troff_parse_step, hgt, hth, ht]

theorem troff_parse_step_skip (trie : Troffnode) (dom : Pagedom) (buf : List Nat)
    (node : Option Trofftype) (k : Nat) (hgt : get_type trie buf = .ok (node, k))
    (hnth : ∀ tt, node = some tt → ¬ tt.ltype = Ltype.TH) :
    troff_parse_step trie dom buf = .ok dom := by
  rcases node with _ | tt
  · simp [troff_parse_step, hgt]
  · simp [troff_parse_step, hgt, hnth tt rfl]

theorem troff_parse_loop_dup (trie : Troffnode) :
    ∀ (fuel : Nat) (buf : List Nat) (dom : Pagedom) (t0 : List Nat),
    dom.title = some t0 → hasTHloop trie fuel buf = true →
    troff_parse_loop trie fuel dom buf = .error .duplicateTitle := by
  intro fuel
  induction fuel with
  | zero =>
    intro buf dom t0 ht hth
    cases buf with
    | nil => simp [hasTH, hasTHloop] at hth
    | cons c rest => simp [hasTH, hasTHloop] at hth
  | succ fuel ih =>
    intro buf dom t0 ht hth
    cases buf with
    | nil => simp [hasTH, hasTHloop] at hth
    | cons c rest =>
      have hu : hasTHloop trie (fuel + 1) (c :: rest) =
          (match get_type trie (c :: rest) with
           | .error _ => false
           | .ok (node, _) =>
               (match node with
                | some tt => decide (tt.ltype = Ltype.TH)
                | none => false)
               || hasTHloop trie fuel ((c :: rest).drop (lineAdvance trie (c :: rest)))) := rfl
      have hv : troff_parse_loop trie (fuel + 1) dom (c :: rest) =
          (match troff_parse_step trie dom (c :: rest) with
           | .error er => .error er
           | .ok dom1 =>
               troff_parse_loop trie fuel dom1
                 ((c :: rest).drop (lineAdvance trie (c :: rest)))) := rfl
      rw [hu] at hth
      rw [hv]
      rcases hgt : get_type trie (c :: rest) with e | p
      · rw [hgt] at hth
        simp at hth
      · obtain ⟨node, k⟩ := p
        rw [hgt] at hth
        rcases node with _ | tt
        · simp at hth
          rw [troff_parse_step_skip trie dom _ none k hgt (by intro tt h; cases h)]
          exact ih _ dom t0 ht hth
        · by_cases hth2 : tt.ltype = Ltype.TH
          · rw [troff_parse_step_th_dup trie dom _ tt k hgt hth2 t0 ht]
          · simp [hth2] at hth
            rw [troff_parse_step_skip trie dom _ (some tt) k hgt
              (by intro tt' h; injection h with h; subst h; exact hth2)]
            exact ih _ dom t0 ht hth

theorem troff_parse_loop_noTH (trie : Troffnode) :
    ∀ (fuel : Nat) (buf : List Nat) (dom : Pagedom),
    buf.length ≤ fuel → dom.title = none → (∀ b ∈ buf, b ≠ 128) →
    hasTHloop trie fuel buf = false →
    troff_parse_loop trie fuel dom buf = .error .noTitle := by
  intro fuel
  induction fuel with
  | zero =>
    intro buf dom hlen ht _ _
    cases buf with
    | nil => simp [troff_parse_loop, ht]
    | cons c rest => simp at hlen
  | succ fuel ih =>
    intro buf dom hlen ht h128 hth
    cases buf with
    | nil => simp [troff_parse_loop, ht]
    | cons c rest =>
      obtain ⟨⟨node, k⟩, hgt⟩ := get_type_no128 trie c rest h128
      have hu : hasTHloop trie (fuel + 1) (c :: rest) =
          (match get_type trie (c :: rest) with
           | .error _ => false
           | .ok (node, _) =>
               (match node with
                | some tt => decide (tt.ltype = Ltype.TH)
                | none => false)
               || hasTHloop trie fuel ((c :: rest).drop (lineAdvance trie (c :: rest)))) := rfl
      have hv : troff_parse_loop trie (fuel + 1) dom (c :: rest) =
          (match troff_parse_step trie dom (c :: rest) with
           | .error er => .error er
           | .ok dom1 =>
               troff_parse_loop trie fuel dom1
                 ((c :: rest).drop (lineAdvance trie (c :: rest)))) := rfl
      rw [hu, hgt] at hth
      rw [hv]
      have hlen1 : ((c :: rest).drop (lineAdvance trie (c :: rest))).length ≤ fuel := by
        have := lineAdvance_pos trie (c :: rest)
        simp [List.length_drop]
        simp at hlen
        omega
      have h128x : ∀ b ∈ (c :: rest).drop (lineAdvance trie (c :: rest)), b ≠ 128 :=
        fun b hb => h128 b (List.mem_of_mem_drop hb)
      rcases node with _ | tt
      · simp at hth
        rw [troff_parse_step_skip trie dom _ none k hgt (by intro tt h; cases h)]
        exact ih _ dom hlen1 ht h128x hth
      · simp at hth
        obtain ⟨hth1, hth2⟩ := hth
        rw [troff_parse_step_skip trie dom _ (some tt) k hgt
          (by intro tt' h; injection h with h; subst h; exact hth1)]
        exact ih _ dom hlen1 ht h128x hth2

theorem troff_parse_loop_ok_title (trie : Troffnode) :
    ∀ (fuel : Nat) (buf : List Nat) (dom d : Pagedom),
    troff_parse_loop trie fuel dom buf = .ok d → d.title.isSome := by
  intro fuel
  induction fuel with
  | zero =>
    intro buf dom d h
    cases buf with
    | nil =>
      rcases ht : dom.title with _ | t0
      · simp [troff_parse_loop, ht] at h
      · simp [troff_parse_loop, ht] at h
        subst h
        simp [ht]
    | cons c rest => simp [troff_parse_loop] at h
  | succ fuel ih =>
    intro buf dom d h
    cases buf with
    | nil =>
      rcases ht : dom.title with _ | t0
      · simp [troff_parse_loop, ht] at h
      · simp [troff_parse_loop, ht] at h
        subst h
        simp [ht]
    | cons c rest =>
      have hv : troff_parse_loop trie (fuel + 1) dom (c :: rest) =
          (match troff_parse_step trie dom (c :: rest) with
           | .error er => .error er
           | .ok dom1 =>
               troff_parse_loop trie fuel dom1
                 ((c :: rest).drop (lineAdvance trie (c :: rest)))) := rfl
      rw [hv] at h
      rcases hstep : troff_parse_step trie dom (c :: rest) with er | dom1
      · rw [hstep] at h
        simp at h
      · rw [hstep] at h
        exact ih _ dom1 d h

theorem buildTrie_dup_fails : ∀ (l1 : List Trofftype) (t : Troffnode)
    (d1 : Trofftype) (l2 : List Trofftype) (d2 : Trofftype) (l3 : List Trofftype),
    d1.symbol = d2.symbol → d1.symbol ≠ [] →
    ∀ t', buildTrie t (l1 ++ d1 :: l2 ++ d2 :: l3) ≠ .ok t' := by
  intro l1
  induction l1 with
  | nil =>
    intro t d1 l2 d2 l3 heq hne t' hok
    simp only [List.nil_append, List.cons_append] at hok
    have hb : buildTrie t (d1 :: (l2 ++ d2 :: l3)) =
        (if d1.symbol = [] then buildTrie t (l2 ++ d2 :: l3)
         else match insertSym t d1.symbol d1 with
           | .error e => .error e
           | .ok t1 => buildTrie t1 (l2 ++ d2 :: l3)) := rfl
    rw [hb, if_neg hne] at hok
    rcases hins : insertSym t d1.symbol d1 with e | t1
    · rw [hins] at hok; exact absurd hok (by simp)
    · rw [hins] at hok
      have htag := insertSym_taggedAt _ _ _ _ hins d1.symbol
      rw [if_pos rfl] at htag
      refine buildTrie_fails_of_tagged (l2 ++ d2 :: l3) t1 d2 d1 ?_ ?_ ?_ t' hok
      · exact List.mem_append_right l2 (List.mem_cons_self d2 l3)
      · rw [← heq]; exact hne
      · rw [← heq]; exact htag
  | cons f l1 ih =>
    intro t d1 l2 d2 l3 heq hne t' hok
    simp only [List.cons_append] at hok
    have hb : buildTrie t (f :: ((l1 ++ d1 :: l2) ++ d2 :: l3)) =
        (if f.symbol = [] then buildTrie t ((l1 ++ d1 :: l2) ++ d2 :: l3)
         else match insertSym t f.symbol f with
           | .error e => .error e
           | .ok t1 => buildTrie t1 ((l1 ++ d1 :: l2) ++ d2 :: l3)) := rfl
    rw [hb] at hok
    by_cases hf : f.symbol = []
    · rw [if_pos hf] at hok
      exact ih t d1 l2 d2 l3 heq hne t' hok
    · rw [if_neg hf] at hok
      rcases hins : insertSym t f.symbol f with e | t1
      · rw [hins] at hok; exact absurd hok (by simp)
      · rw [hins] at hok
        exact ih t1 d1 l2 d2 l3 heq hne t' hok

/-! The claims. -/

/-- C1: the spec's quoting examples fail on the code.  `.TH unquoted-title 3`
does not yield `title = "unquoted-title"`, `section = "3"`: it fails with the
section-extraction error both at end-of-buffer (the section token reaches the
end of the stored text and `lex_title` demands a terminator byte after every
token) and with a trailing newline (the parser additionally drops the byte
before the `\n`, erasing the `3` entirely).  `.TH "Spaced Title" "4"` only
matches the spec at end-of-buffer; with a trailing newline the final quote is
dropped and section extraction fails.  Only the `.TH "Unterminated` example
behaves as claimed under both terminations. -/
theorem c1_title_quoting_examples :
    troff_parse theTrie
      [46,84,72,32,117,110,113,117,111,116,101,100,45,116,105,116,108,101,32,51] =
      .error .sectionFail ∧
    troff_parse theTrie
      [46,84,72,32,117,110,113,117,111,116,101,100,45,116,105,116,108,101,32,51,10] =
      .error .sectionFail ∧
    troff_parse theTrie
      [46,84,72,32,34,83,112,97,99,101,100,32,84,105,116,108,101,34,32,34,52,34] =
      .ok ⟨some [83,112,97,99,101,100,32,84,105,116,108,101], some [52],
           some [34,83,112,97,99,101,100,32,84,105,116,108,101,34,32,34,52,34]⟩ ∧
    troff_parse theTrie
      [46,84,72,32,34,83,112,97,99,101,100,32,84,105,116,108,101,34,32,34,52,34,10] =
      .error .sectionFail ∧
    troff_parse theTrie
      [46,84,72,32,34,85,110,116,101,114,109,105,110,97,116,101,100] = .error .titleFail ∧
    troff_parse theTrie
      [46,84,72,32,34,85,110,116,101,114,109,105,110,97,116,101,100,10] = .error .titleFail :=
  ⟨rfl, rfl, rfl, rfl, rfl, rfl⟩

/-- C2: the raw text stored for a title line omits a content byte when the
line ends in a newline.  For the buffer `.TH AB CD EF\n` the stored root text
is `AB CD E` — the final `F` before the `\n` is dropped (the `--feol`
adjustment makes `feol` point at the last content byte, which the
`strndup(ws + 1, feol - (ws + 1))` span then excludes) — while the
end-of-buffer variant `.TH AB CD EF` stores the full `AB CD EF`. -/
theorem c2_roottext_drops_last_byte :
    troff_parse theTrie [46,84,72,32,65,66,32,67,68,32,69,70,10] =
      .ok ⟨some [65,66], some [67,68], some [65,66,32,67,68,32,69]⟩ ∧
    troff_parse theTrie [46,84,72,32,65,66,32,67,68,32,69,70] =
      .ok ⟨some [65,66], some [67,68], some [65,66,32,67,68,32,69,70]⟩ ∧
    ([65,66,32,67,68,32,69] : List Nat) ≠ [65,66,32,67,68,32,69,70] :=
  ⟨rfl, rfl, by decide⟩

/-- C3: on a successful inflate the zlib build of `map_gzipped_data` does NOT
return the new region: its success branch releases the original mapping a
second time and falls through to `return NULL`, so the caller releases the
anonymous region and the whole load fails; the libdeflate build behaves as
the claim states (returns the region with the decompressed length after
releasing the original exactly once, and on failure both regions end up
released). -/
theorem c3_zlib_success_returns_null :
    map_gzipped_data_zlib true true = ⟨none, 2⟩ ∧
    map_troff_data .zlib true 18 gzSample true true true true true =
      ⟨.error .decompressFail, 2, 1⟩ ∧
    map_gzipped_data_libdeflate true true 4 = ⟨some 4, 1⟩ ∧
    map_troff_data .libdeflate true 18 gzSample true true true true true =
      ⟨.ok (.ubuf, 4), 1, 0⟩ ∧
    map_troff_data .libdeflate true 18 gzSample true true true true false =
      ⟨.error .decompressFail, 1, 1⟩ :=
  ⟨rfl, rfl, rfl, rfl, rfl⟩

/-- C4: the release-exactly-once invariant is broken on the zlib build: a
session over a gzip file whose payload inflates successfully releases the
original mapping twice (once in the zlib `inflate` epilogue and once more in
the fall-through before `return NULL`), while the identical session under the
libdeflate build releases each of the two mappings exactly once. -/
theorem c4_session_release_counts :
    manloop true .zlib true 18 gzSample true true true true true true true true true true =
      ⟨-1, 2, 1⟩ ∧
    manloop true .libdeflate true 18 gzSample true true true true true true true true true true =
      ⟨0, 1, 1⟩ :=
  ⟨rfl, rfl⟩

/-- C5: macro classification checks the scanned byte with `>` against the
trie's size 128 instead of `>=`: a symbol byte of exactly 128 (0x80) passes
the guard and indexes child slot 128 — one past the trie's 0..127 range — an
out-of-bounds access (modelled as `.error ()`), so it is not the case that
every byte outside 0..127 yields "no match" without out-of-range indexing;
bytes 129..255 do return "no match" safely. -/
theorem c5_byte128_oob :
    get_type theTrie [46, 128, 10] = .error () ∧
    get_type theTrie [46, 129, 10] = .ok (none, 1) ∧
    get_type theTrie [46, 255, 32] = .ok (none, 1) :=
  ⟨rfl, rfl, rfl⟩

/-- C6: trie determinism.  Construction from the static table succeeds; for
every registered descriptor, classifying a line `.<symbol>` followed by a
whitespace byte returns exactly that descriptor; for every nonempty string of
non-NUL, non-whitespace bytes in the trie's 0..127 domain that is not a
registered symbol, classification returns "no match"; and construction from
any table in which two descriptors share a nonempty symbol path fails. -/
theorem c6_trie_determinism :
    trofftrie = .ok theTrie
  ∧ (∀ e ∈ trofftypes, e.symbol ≠ [] → ∀ c r, isspace c = true →
      ∃ k, get_type theTrie (46 :: (e.symbol ++ c :: r)) = .ok (some e, k))
  ∧ (∀ s : List Nat, (∀ b ∈ s, b ≠ 0 ∧ isspace b = false ∧ b < 128) →
      s ∉ trofftypes.map (fun d => d.symbol) → ∀ c r, isspace c = true →
      ∃ k, get_type theTrie (46 :: (s ++ c :: r)) = .ok (none, k))
  ∧ (∀ (l1 l2 l3 : List Trofftype) (d1 d2 : Trofftype),
      d1.symbol = d2.symbol → d1.symbol ≠ [] →
      ∀ t', buildTrie (.mk [] none) (l1 ++ d1 :: l2 ++ d2 :: l3) ≠ .ok t') := by
  refine ⟨rfl, ?_, ?_, ?_⟩
  · intro e he hne c r hc
    have hclean : ∀ e ∈ trofftypes, ∀ b ∈ e.symbol, b ≠ 0 ∧ isspace b = false ∧ b < 128 := by
      decide
    have htag : ∀ e ∈ trofftypes, e.symbol = [] ∨ taggedAt theTrie e.symbol = some e := by
      decide
    obtain ⟨k, hk⟩ := get_type_path e.symbol theTrie 1 c r (hclean e he) (Or.inl hc)
    refine ⟨k, ?_⟩
    rw [get_type_dot, hk]
    rcases htag e he with h | h
    · exact absurd h hne
    · rw [h]
  · intro s hclean hnot c r hc
    have htag : taggedAt theTrie s = none := by
      have hnm : ∀ d ∈ trofftypes, d.symbol ≠ s := by
        intro d hd hds
        exact hnot (hds ▸ List.mem_map_of_mem (fun d => d.symbol) hd)
      rw [buildTrie_taggedAt_notin trofftypes (.mk [] none) theTrie trofftrie_ok s hnm]
      exact taggedAt_nilNode s
    obtain ⟨k, hk⟩ := get_type_path s theTrie 1 c r hclean (Or.inl hc)
    refine ⟨k, ?_⟩
    rw [get_type_dot, hk, htag]
  · intro l1 l2 l3 d1 d2 heq hne
    exact buildTrie_dup_fails l1 (.mk [] none) d1 l2 d2 l3 heq hne

/-- C6 witness: the theorem instantiated at the `.TH` entry with a space and
empty remainder, at the unregistered symbol `X`, and at a two-entry table
repeating the `.B` descriptor. -/
theorem c6_trie_determinism_witness :
    (⟨Ltype.TH, [84, 72], Ttype.structural⟩ : Trofftype) ∈ trofftypes ∧
    (∃ k, get_type theTrie (46 :: ([84, 72] ++ 32 :: [])) =
       .ok (some ⟨Ltype.TH, [84, 72], Ttype.structural⟩, k)) ∧
    (∃ k, get_type theTrie (46 :: ([88] ++ 32 :: [])) = .ok (none, k)) ∧
    (∀ t', buildTrie (.mk [] none)
       ([] ++ (⟨Ltype.B, [66], Ttype.font⟩ : Trofftype) :: [] ++
         (⟨Ltype.B, [66], Ttype.font⟩ : Trofftype) :: []) ≠ .ok t') := by
  refine ⟨by decide, ?_, ?_, ?_⟩
  · exact c6_trie_determinism.2.1 ⟨Ltype.TH, [84, 72], Ttype.structural⟩
      (by decide) (by decide) 32 [] (by decide)
  · exact c6_trie_determinism.2.2.1 [88] (by decide) (by decide) 32 [] (by decide)
  · exact c6_trie_determinism.2.2.2 [] [] [] _ _ rfl (by decide)

/-- C7 counterexample: the buffer `.TH x\n.TH x\n` contains two `.TH` lines
but parsing fails with the empty-title error (the first line's content span
trips the `ws + 1 == feol` guard), not the duplicate-title error — so a
two-`.TH` buffer does not fail with duplicate-title regardless of the lines'
contents. -/
theorem c7_counterexample :
    troff_parse theTrie [46,84,72,32,120,10,46,84,72,32,120,10] = .error .emptyTitle ∧
    (Except.error ParseErr.emptyTitle : Except ParseErr Pagedom) ≠
      .error ParseErr.duplicateTitle :=
  ⟨rfl, by decide⟩

/-- C7 (amended): the title is set if and only if a title line was
successfully parsed: every successful parse has the title set; once a title
has been recorded, a buffer still containing a `.TH` line fails with the
duplicate-title error (so a second `.TH` line after a successfully parsed one
fails with duplicate-title); and a buffer free of byte 0x80 (which would hit
the classifier's out-of-range read) containing no `.TH` line fails with the
no-title error. -/
theorem c7_title_iff_amended :
    (∀ (trie : Troffnode) (buf : List Nat) (d : Pagedom),
        troff_parse trie buf = .ok d → d.title.isSome)
  ∧ (∀ (trie : Troffnode) (buf : List Nat) (dom : Pagedom) (t0 : List Nat),
        dom.title = some t0 → hasTH trie buf = true →
        troff_parse_loop trie buf.length dom buf = .error .duplicateTitle)
  ∧ (∀ (trie : Troffnode) (buf : List Nat),
        (∀ b ∈ buf, b ≠ 128) → hasTH trie buf = false →
        troff_parse trie buf = .error .noTitle) := by
  refine ⟨?_, ?_, ?_⟩
  · intro trie buf d h
    exact troff_parse_loop_ok_title trie buf.length buf _ d h
  · intro trie buf dom t0 ht hth
    exact troff_parse_loop_dup trie buf.length buf dom t0 ht hth
  · intro trie buf h128 hth
    exact troff_parse_loop_noTH trie buf.length buf _ (le_refl _) rfl h128 hth

/-- C7 witness: the amended theorem applied to a successful parse of
`.TH AB CD EF`, to a state with a recorded title meeting `.TH AB CD EF\n`,
and to the title-free buffer `hello\n`. -/
theorem c7_title_iff_amended_witness :
    (Pagedom.title ⟨some [65,66], some [67,68], some [65,66,32,67,68,32,69,70]⟩).isSome ∧
    troff_parse_loop theTrie 13 ⟨some [120], none, none⟩
      [46,84,72,32,65,66,32,67,68,32,69,70,10] = .error .duplicateTitle ∧
    troff_parse theTrie [104,101,108,108,111,10] = .error .noTitle := by
  refine ⟨?_, ?_, ?_⟩
  · exact c7_title_iff_amended.1 theTrie [46,84,72,32,65,66,32,67,68,32,69,70] _ rfl
  · exact c7_title_iff_amended.2.1 theTrie [46,84,72,32,65,66,32,67,68,32,69,70,10]
      ⟨some [120], none, none⟩ [120] rfl rfl
  · exact c7_title_iff_amended.2.2 theTrie [104,101,108,108,111,10] (by decide) rfl

/-- C8: the empty-title guard catches the empty and single-character content
spans at end-of-buffer, at a NUL terminator, and for `.TH ` / `.TH x` before
a newline — but NOT for a bare `.TH` directly followed by a newline: there
the `--feol` adjustment moves `feol` to before `ws`, the
`ws == feol || ws + 1 == feol` guard is false, and the parser reaches
`strndup` with an underflowed (negative) length, reading out of bounds
instead of failing with the empty-title error. -/
theorem c8_empty_title_guard :
    troff_parse theTrie [46, 84, 72, 10] = .error .oobRead ∧
    troff_parse theTrie [46, 84, 72] = .error .emptyTitle ∧
    troff_parse theTrie [46, 84, 72, 0] = .error .emptyTitle ∧
    troff_parse theTrie [46, 84, 72, 32, 10] = .error .emptyTitle ∧
    troff_parse theTrie [46, 84, 72, 32, 120, 10] = .error .emptyTitle :=
  ⟨rfl, rfl, rfl, rfl, rfl⟩

/-- C9: (1) every file of size below 18 is rejected with the too-small error
before any signature inspection — for any mapped content and any outcome of
the later stages, so the result depends on none of them; (2) a file of size
exactly 18 is never rejected as too-small, whatever its content and whatever
the decompression-detection path later does with it. -/
theorem c9_min_size_boundary :
    (∀ (variant : Variant) (size : Nat) (content : List Nat)
        (mmapOk anonOk allocOk initOk inflateOk : Bool),
        size < 18 →
        map_troff_data variant true size content mmapOk anonOk allocOk initOk inflateOk =
          ⟨.error .tooSmall, 0, 0⟩)
  ∧ (∀ (variant : Variant) (content : List Nat)
        (mmapOk anonOk allocOk initOk inflateOk : Bool),
        (map_troff_data variant true 18 content mmapOk anonOk allocOk initOk
          inflateOk).result ≠ .error .tooSmall) := by
  constructor
  · intro v size content m a al i inf hs
    simp [map_troff_data, hs]
  · intro v content m a al i inf
    cases v <;> cases m <;> cases a <;> cases al <;> cases i <;> cases inf <;>
      by_cases hg : gzipSig content = true <;>
      simp [map_troff_data, hg, map_gzipped_data_libdeflate, map_gzipped_data_zlib]

/-- C9 witness: a 17-byte file is rejected as too-small, an 18-byte file is
not. -/
theorem c9_min_size_boundary_witness :
    map_troff_data .zlib true 17 gzSample true true true true true =
      ⟨.error .tooSmall, 0, 0⟩ ∧
    (map_troff_data .zlib true 18 gzSample true true true true true).result ≠
      .error .tooSmall :=
  ⟨c9_min_size_boundary.1 .zlib 17 gzSample true true true true true (by decide),
   c9_min_size_boundary.2 .zlib gzSample true true true true true⟩

/-- C10: an embedded NUL terminates a line exactly as a newline does: the
end-of-line scan stops at the first NUL just as it stops at a newline (same
index); the classifier scan stops at a NUL exactly as at whitespace, with
the same result; the scan position for the next line is one byte past the
line terminator; and for a NUL-terminated line the content span ends at the
NUL, so bytes after it are never part of that line's content. -/
theorem c10_nul_terminates_line :
    (∀ (a : List Nat) (s : Nat) (b : List Nat), (∀ c ∈ a, c ≠ 0 ∧ c ≠ 10) →
        (s = 0 ∨ s = 10) → eolIndex (a ++ s :: b) = a.length)
  ∧ (∀ (t : Troffnode) (r : List Nat) (acc : Nat),
        get_type_go t (0 :: r) acc = .ok (t.ttype, acc) ∧
        get_type_go t (0 :: r) acc = get_type_go t (10 :: r) acc)
  ∧ (∀ (trie : Troffnode) (buf : List Nat) (node : Option Trofftype) (k : Nat),
        get_type trie buf = .ok (node, k) → lineAdvance trie buf = eolIndex buf + 1)
  ∧ (∀ (a b : List Nat), (∀ c ∈ a, c ≠ 0 ∧ c ≠ 10) →
        feolIndex (eolIndex (a ++ 0 :: b)) (a ++ 0 :: b) = a.length ∧
        (a ++ 0 :: b).drop (eolIndex (a ++ 0 :: b) + 1) = b) := by
  refine ⟨eolIndex_stop, ?_, ?_, ?_⟩
  · intro t r acc
    exact ⟨rfl, rfl⟩
  · intro trie buf node k h
    exact lineAdvance_eq trie buf node k h
  · intro a b hcl
    have he := eolIndex_stop a 0 b hcl (Or.inl rfl)
    constructor
    · rw [he, feolIndex]
      rw [if_neg (fun h => by
        have h2 := h.2
        rw [getD_append_self] at h2
        exact absurd h2 (by decide))]
    · rw [he, drop_append_succ]

/-- C10 witness: the theorem instantiated at the line `a` terminated by NUL
before `b`, at the classifier on a NUL, and at the line `.TH\n`. -/
theorem c10_nul_terminates_line_witness :
    eolIndex [97, 0, 98] = 1 ∧
    get_type_go theTrie [0, 99] 5 = .ok (theTrie.ttype, 5) ∧
    lineAdvance theTrie [46, 84, 72, 10] = eolIndex [46, 84, 72, 10] + 1 ∧
    feolIndex (eolIndex [97, 0, 98]) [97, 0, 98] = 1 := by
  refine ⟨?_, ?_, ?_, ?_⟩
  · exact c10_nul_terminates_line.1 [97] 0 [98] (by decide) (Or.inl rfl)
  · exact (c10_nul_terminates_line.2.1 theTrie [99] 5).1
  · exact c10_nul_terminates_line.2.2.1 theTrie [46, 84, 72, 10]
      (some ⟨Ltype.TH, [84, 72], Ttype.structural⟩) 3 rfl
  · exact (c10_nul_terminates_line.2.2.2 [97] [98] (by decide)).1
